import Mathlib

/-!
Verification development for the pynapple time-series core.

Times and data values are modelled as exact rationals (the code uses IEEE
doubles; all claims checked here are about exact arithmetic facts that the
doubles represent exactly at the inputs involved).  Python lists/arrays are
Lean lists; fallible operations return `Except`.

Definitions named after source symbols are translated from
`pynapple/core/time_series.py` and `pynapple/process/correlograms.py`.
Modules that the sources import but that are not part of the source tree
(`jitted_functions.py`, `interval_set.py`, `time_units.py`, `ts_group.py`)
are modelled from the specification; each such definition carries a doc
comment starting with "Modelled from the spec".
-/

attribute [local semireducible] Rat.add Rat.mul Rat.inv Rat.sub

set_option maxRecDepth 8000

/-- Error values raised by the modelled operations, keeping Python's
distinction between `ValueError` and `RuntimeError`. -/
inductive NapError where
  | valueError (msg : String)
  | runtimeError (msg : String)
deriving DecidableEq

/-- The time-unit enumeration accepted throughout the core. -/
inductive TUnit where
  | s
  | ms
  | us
deriving DecidableEq

/-- Modelled from the spec (Time Index Utilities): the fixed multiplicative
factor table converting a declared unit into the canonical unit (seconds). -/
def unitFactor : TUnit → ℚ
  | TUnit.s => 1
  | TUnit.ms => 1 / 1000
  | TUnit.us => 1 / 1000000

/-- Modelled from the spec (Time Index Utilities; the source module
`pynapple/core/time_units.py` is not under the source tree): conversion of
raw values in a declared unit into canonical seconds by the fixed factor
table.  Units are an enumeration here, so the invalid-unit error path is
unrepresentable; the fixed sub-unit rounding the spec mentions exists to
suppress floating-point dust and is the identity on these exact rationals,
so it is not modelled. -/
def format_timestamps (t : List ℚ) (units : TUnit) : List ℚ :=
  t.map (fun x => x * unitFactor units)

/-- Modelled from the spec (Time Index Utilities): stable ascending sort
collapsing exact duplicate timestamps. -/
def sort_timestamps (t : List ℚ) : List ℚ :=
  (List.insertionSort (fun a b => a ≤ b) t).dedup

/-- Modelled from the spec (Interval Algebra; the source module
`pynapple/core/interval_set.py` is not under the source tree): an interval
set is an ordered sequence of `(start, end)` pairs. -/
structure IntervalSet where
  intervals : List (ℚ × ℚ)
deriving DecidableEq

/-- Merging scan over a start-sorted pair list carrying the interval under
construction: the next interval merges into it when its start is ≤ the
current end (touching intervals merge). -/
def mergeAux : (ℚ × ℚ) → List (ℚ × ℚ) → List (ℚ × ℚ)
  | p, [] => [p]
  | (s1, e1), (s2, e2) :: rest =>
    if s2 ≤ e1 then mergeAux (s1, max e1 e2) rest
    else (s1, e1) :: mergeAux (s2, e2) rest

/-- Modelled from the spec (Interval Algebra): canonicalization of a
start-sorted pair list by the merging scan. -/
def mergeIntervals : List (ℚ × ℚ) → List (ℚ × ℚ)
  | [] => []
  | p :: rest => mergeAux p rest

/-- Modelled from the spec (Interval Algebra): construction sorts the pairs
by start and merges overlapping/touching intervals into the canonical
minimal form.  (The validation failure for a pair with end < start is not
modelled; no claim checked here exercises it.) -/
def IntervalSet.of (pairs : List (ℚ × ℚ)) : IntervalSet :=
  ⟨mergeIntervals (List.insertionSort (fun a b => a.1 ≤ b.1) pairs)⟩

/-- The interval set with zero intervals (the source builds it from an empty
dataframe). -/
def IntervalSet.empty : IntervalSet := ⟨[]⟩

/-- Modelled from the spec (Interval Algebra): total duration, the sum of
end minus start over all intervals. -/
def IntervalSet.totalDuration (ep : IntervalSet) : ℚ :=
  (ep.intervals.map (fun p => p.2 - p.1)).sum

/-- Boundary-inclusive membership of a time in some interval of the set. -/
def IntervalSet.containsT (ep : IntervalSet) (x : ℚ) : Bool :=
  ep.intervals.any (fun p => decide (p.1 ≤ x) && decide (x ≤ p.2))

/-- Modelled from the spec (Windowed Scan Algorithms, Restrict; the source
module `pynapple/core/jitted_functions.py` is not under the source tree):
keep exactly the (time, data) pairs whose time lies within some interval of
the set, boundary-inclusive. -/
def jitrestrict {α : Type} (t : List ℚ) (d : List α) (ep : IntervalSet) :
    List ℚ × List α :=
  ((t.zip d).filter (fun td => ep.containsT td.1)).unzip

/-- Modelled from the spec (Windowed Scan Algorithms, Restrict): the
timestamps-only variant of `jitrestrict`. -/
def jittsrestrict (t : List ℚ) (ep : IntervalSet) : List ℚ :=
  t.filter (fun x => ep.containsT x)

/-- Translation of `_cross_correlogram` (correlograms.py): number of bins,
`int((windowsize * 2) // binsize)` bumped to the next odd number when even
(the `np.floor(nbins / 2) * 2 == nbins` test). -/
def corrNbins (binsize windowsize : ℚ) : ℤ :=
  let n := ⌊(windowsize * 2) / binsize⌋
  if n % 2 = 0 then n + 1 else n

/-- Translation of `_cross_correlogram`: the half-window `w = (nbins / 2) * binsize`
(true division). -/
def corrW (binsize windowsize : ℚ) : ℚ :=
  ((corrNbins binsize windowsize : ℚ) / 2) * binsize

/-- Translation of `_cross_correlogram`: the bin-center array
`B[j] = -w + binsize / 2 + j * binsize`. -/
def corrB (binsize windowsize : ℚ) : List ℚ :=
  let nbins := (corrNbins binsize windowsize).toNat
  let m := -(corrW binsize windowsize) + binsize / 2
  (List.range nbins).map (fun j : ℕ => m + (j : ℚ) * binsize)

/-- Translation of the inner `for j in range(nbins)` loop of
`_cross_correlogram`: advance `rbound` by `binsize` each step and count the
consecutive target timestamps below it, starting the scan at `leftb`. -/
def binLoop (t2 : List ℚ) (binsize : ℚ) : ℕ → ℚ → ℕ → List ℕ
  | 0, _, _ => []
  | j + 1, rbound, leftb =>
    let rb := rbound + binsize
    let k := ((t2.drop leftb).takeWhile (fun x => decide (x < rb))).length
    k :: binLoop t2 binsize j rb (leftb + k)

/-- Translation of the `while i2 > 0 and t2[i2 - 1] > lbound` retreat loop of
`_cross_correlogram`. -/
def retreatGt (t2 : List ℚ) (lbound : ℚ) : ℕ → ℕ
  | 0 => 0
  | i + 1 => if lbound < t2.getD i 0 then retreatGt t2 lbound i else i + 1

/-- Translation of the outer `for i1 in range(nt1)` loop of
`_cross_correlogram`: for each reference time, advance then retreat the
shared cursor `i2` to the left window bound, run the bin loop from there and
accumulate the counts into `C`. -/
def corrLoop (t2 : List ℚ) (w binsize : ℚ) (nbins : ℕ) :
    List ℚ → ℕ → List ℚ → List ℚ
  | [], _, C => C
  | x :: rest, i2, C =>
    let lbound := x - w
    let i2a := i2 + ((t2.drop i2).takeWhile (fun y => decide (y < lbound))).length
    let i2b := retreatGt t2 lbound i2a
    let ks := binLoop t2 binsize nbins lbound i2b
    corrLoop t2 w binsize nbins rest i2b
      (List.zipWith (fun c k => c + (k : ℚ)) C ks)

/-- Translation of `_cross_correlogram` (correlograms.py): the discrete
cross-correlogram of two timestamp series, returning the count array scaled
by `1 / (nt1 * binsize)` and the bin-center array. -/
def cross_correlogram (t1 t2 : List ℚ) (binsize windowsize : ℚ) :
    List ℚ × List ℚ :=
  let nbins := (corrNbins binsize windowsize).toNat
  let w := corrW binsize windowsize
  let C := corrLoop t2 w binsize nbins t1 0 (List.replicate nbins 0)
  (C.map (fun c => c / ((t1.length : ℚ) * binsize)), corrB binsize windowsize)

/-- C3: for reference timestamps [0] and target timestamps [1],
`_cross_correlogram` with binsize 1 and windowsize 100 returns a count array
of length 201 whose entry at index 101 equals exactly 1 after the scaling by
`1 / (n1 * binsize)` with `n1 = 1`; index 101 is the bin centered at lag 1. -/
theorem cross_correlogram_single_pair :
    (cross_correlogram [0] [1] 1 100).1.length = 201
  ∧ (cross_correlogram [0] [1] 1 100).1.getD 101 0 = 1
  ∧ (cross_correlogram [0] [1] 1 100).2.getD 101 0 = 1 := by
  decide

/-- Translation of the `Tsd` container (time_series.py): a time index, an
aligned data buffer, a time support, the derived rate, and the
`nap_class` discriminator string the source stores on every instance. -/
structure Tsd where
  index : List ℚ
  values : List ℚ
  time_support : IntervalSet
  rate : ℚ
  nap_class : String
deriving DecidableEq

/-- Translation of `Tsd.__init__` (time_series.py): when `d` is absent the
source substitutes `np.empty_like(t)` (uninitialized storage of matching
length, modelled as zeros since its contents are unspecified); times are
unit-converted and sorted; with an explicit support the pairs are restricted
to it and the support is adopted, otherwise the bounding interval of the
times becomes the support; the rate is the restricted length over the total
duration; an empty time index yields the empty support and rate 0. -/
def mkTsd (t : List ℚ) (dOpt : Option (List ℚ)) (time_units : TUnit)
    (time_support : Option IntervalSet) : Tsd :=
  let d := dOpt.getD (List.replicate t.length 0)
  let ts := sort_timestamps (format_timestamps t time_units)
  if ts.isEmpty then
    { index := [], values := [], time_support := IntervalSet.empty,
      rate := 0, nap_class := "Tsd" }
  else
    match time_support with
    | some ep =>
      let td := jitrestrict ts d ep
      { index := td.1, values := td.2, time_support := ep,
        rate := (td.1.length : ℚ) / ep.totalDuration, nap_class := "Tsd" }
    | none =>
      let ep := IntervalSet.of [(ts.headD 0, ts.getLastD 0)]
      { index := ts, values := d, time_support := ep,
        rate := (ts.length : ℚ) / ep.totalDuration, nap_class := "Tsd" }

/-- Translation of `Ts.__init__` (time_series.py): a `Ts` is built by the
`Tsd` initializer with no data, with `nap_class` overwritten to "Ts". -/
def mkTs (t : List ℚ) (time_units : TUnit) (time_support : Option IntervalSet) :
    Tsd :=
  { mkTsd t none time_units time_support with nap_class := "Ts" }

/-- Translation of `Tsd.restrict` (time_series.py): restrict the pairs with
`jitrestrict` and rebuild through the initializer with the supplied interval
set as the declared support. -/
def Tsd.restrict (x : Tsd) (ep : IntervalSet) : Tsd :=
  let td := jitrestrict x.index x.values ep
  mkTsd td.1 (some td.2) TUnit.s (some ep)

/-- Translation of `Tsd.__getitem__` (time_series.py): select positions from
the values and the index and rebuild with `Tsd(t=index, d=data)` — always a
`Tsd`, with no declared support, so the bounding interval of the selected
times is derived.  The key models an integer (singleton list), slice or
integer-array index as the list of selected positions. -/
def Tsd.getitem (x : Tsd) (key : List ℕ) : Tsd :=
  let data := key.map (fun i => x.values.getD i 0)
  let index := key.map (fun i => x.index.getD i 0)
  mkTsd index (some data) TUnit.s none

/-- Translation of the `TsdFrame` container (time_series.py): like `Tsd`
with a two-dimensional (time × channel) data buffer, stored here as the list
of rows, plus a column-label array. -/
structure TsdFrame where
  index : List ℚ
  values : List (List ℚ)
  columns : List ℕ
  time_support : IntervalSet
  rate : ℚ
  nap_class : String
deriving DecidableEq

/-- Translation of `TsdFrame.__init__` (time_series.py), following
`Tsd.__init__` with two-dimensional data; absent column labels default to
`np.arange(d.shape[1])`. -/
def mkTsdFrame (t : List ℚ) (d : List (List ℚ)) (cOpt : Option (List ℕ))
    (time_units : TUnit) (time_support : Option IntervalSet) : TsdFrame :=
  let c := cOpt.getD (List.range (d.headD []).length)
  let ts := sort_timestamps (format_timestamps t time_units)
  if ts.isEmpty then
    { index := [], values := [], columns := c, time_support := IntervalSet.empty,
      rate := 0, nap_class := "TsdFrame" }
  else
    match time_support with
    | some ep =>
      let td := jitrestrict ts d ep
      { index := td.1, values := td.2, columns := c, time_support := ep,
        rate := (td.1.length : ℚ) / ep.totalDuration, nap_class := "TsdFrame" }
    | none =>
      let ep := IntervalSet.of [(ts.headD 0, ts.getLastD 0)]
      { index := ts, values := d, columns := c, time_support := ep,
        rate := (ts.length : ℚ) / ep.totalDuration, nap_class := "TsdFrame" }

/-- Translation of `TsdFrame.restrict` (time_series.py): restrict the rows
with `jitrestrict` and rebuild through the initializer, carrying the columns
and the supplied interval set as the declared support. -/
def TsdFrame.restrict (x : TsdFrame) (iset : IntervalSet) : TsdFrame :=
  let td := jitrestrict x.index x.values iset
  mkTsdFrame td.1 td.2 (some x.columns) TUnit.s (some iset)

/-- Translation of `TsdFrame.__getitem__` (time_series.py) for the row-key
kinds (integer, slice, integer array), given as the list of selected
positions.  A slice or array key selects a two-dimensional block whose
leading length matches the sliced index, so the source rebuilds with
`TsdFrame(t=index, d=output)` (no columns passed); an integer key makes the
sliced index a scalar Number, so the source takes the
`isinstance(index, Number)` branch and rebuilds
`TsdFrame(t=np.array([index]), d=np.atleast_2d(output))` — in this
positions-list model both paths produce the same result, with the singleton
list standing for the wrapped scalar.  (Tuple keys, which select columns and
can return a `Tsd`, are not among the claim's key kinds and are not
modelled.) -/
def TsdFrame.getitem (x : TsdFrame) (key : List ℕ) : TsdFrame :=
  let output := key.map (fun i => x.values.getD i [])
  let index := key.map (fun i => x.index.getD i 0)
  mkTsdFrame index output none TUnit.s none

/-- Translation of the comparison selected by the `method` string in
`Tsd.threshold` / `jitthreshold` ("above" strict >, "below" strict <,
"aboveequal" ≥, "belowequal" ≤). -/
def threshCmp (method : String) (thr x : ℚ) : Bool :=
  if method = "above" then decide (thr < x)
  else if method = "below" then decide (x < thr)
  else if method = "aboveequal" then decide (thr ≤ x)
  else decide (x ≤ thr)

/-- Maximal runs of consecutive `true` entries of a mask, as (first, last)
index pairs. -/
def runsAux (i : ℕ) (cur : Option ℕ) : List Bool → List (ℕ × ℕ)
  | [] =>
    match cur with
    | some s => [(s, i - 1)]
    | none => []
  | b :: rest =>
    match cur, b with
    | none, true => runsAux (i + 1) (some i) rest
    | none, false => runsAux (i + 1) none rest
    | some s, true => runsAux (i + 1) (some s) rest
    | some s, false => (s, i - 1) :: runsAux (i + 1) none rest

/-- Maximal runs of `true` in a mask, starting the index count at 0. -/
def runs (mask : List Bool) : List (ℕ × ℕ) := runsAux 0 none mask

/-- Start bound of a qualifying run beginning at sample `i`: the midpoint
with the preceding sample, or the sample time itself when there is none. -/
def runStart (t : List ℚ) (i : ℕ) : ℚ :=
  if i = 0 then t.getD 0 0 else (t.getD (i - 1) 0 + t.getD i 0) / 2

/-- End bound of a qualifying run ending at sample `j`: the midpoint with
the following sample, or the sample time itself when there is none. -/
def runEnd (t : List ℚ) (j : ℕ) : ℚ :=
  if j + 1 = t.length then t.getD j 0 else (t.getD j 0 + t.getD (j + 1) 0) / 2

/-- Modelled from the spec (Windowed Scan Algorithms, Threshold; the source
`jitthreshold` is not under the source tree): keep the qualifying samples
and produce the run-length epochs where the condition holds, with epoch
bounds at midpoints between a boundary sample and its non-qualifying
neighbour (the documented example in `Tsd.threshold` pins this: thresholding
0..99 above 50 gives the epoch `[50.5, 99.0]`); fails with the domain error
the spec requires when no epoch satisfies the condition. -/
def jitthreshold (t d : List ℚ) (thr : ℚ) (method : String) :
    Except NapError (List ℚ × List ℚ × List (ℚ × ℚ)) :=
  let mask := d.map (fun x => threshCmp method thr x)
  let td := (t.zip d).filter (fun pr => threshCmp method thr pr.2)
  let eps := (runs mask).map (fun se => (runStart t se.1, runEnd t se.2))
  if eps.isEmpty then
    Except.error (NapError.runtimeError ("No epochs satisfy the threshold"))
  else
    Except.ok ((td.unzip).1, (td.unzip).2, eps)

/-- The four method strings `Tsd.threshold` accepts. -/
def validMethods : List String := ["above", "below", "aboveequal", "belowequal"]

/-- Translation of `Tsd.threshold` (time_series.py): reject any method
string outside the accepted four with a `ValueError` before the scan runs,
otherwise threshold with `jitthreshold` and rebuild a `Tsd` whose declared
support is the canonicalized run epochs. -/
def Tsd.threshold (x : Tsd) (thr : ℚ) (method : String) : Except NapError Tsd :=
  if method ∈ validMethods then
    match jitthreshold x.index x.values thr method with
    | Except.error e => Except.error e
    | Except.ok tde =>
      Except.ok (mkTsd tde.1 (some tde.2.1) TUnit.s (some (IntervalSet.of tde.2.2)))
  else
    Except.error (NapError.valueError
      ("Method " ++ method ++ " for thresholding is not accepted."))

/-- Round-half-to-even on rationals, the rounding mode of `np.round`. -/
def roundHalfEven (x : ℚ) : ℤ :=
  let f := ⌊x⌋
  let r := x - (f : ℚ)
  if r < 1 / 2 then f
  else if 1 / 2 < r then f + 1
  else if f % 2 = 0 then f else f + 1

/-- Translation of `np.round(times, 6)` applied to the bin centers in
`compute_autocorrelogram`. -/
def round6 (x : ℚ) : ℚ := (roundHalfEven (x * 1000000) : ℚ) / 1000000

/-- Modelled from the spec (Grouped container; the source module
`pynapple/core/ts_group.py` is not under the source tree): a mapping from
unit identifiers to timestamp containers. -/
structure TsGroup where
  members : List (ℕ × Tsd)

/-- Modelled from the spec (Grouped container): restriction is forwarded
uniformly to every member. -/
def TsGroup.restrict (g : TsGroup) (ep : IntervalSet) : TsGroup :=
  ⟨g.members.map (fun kv => (kv.1, kv.2.restrict ep))⟩

/-- Modelled from the spec (Grouped container): the `get_info("rate")`
lookup, returning the member container's stored rate. -/
def TsGroup.rateOf (g : TsGroup) (k : ℕ) : ℚ :=
  ((g.members.lookup k).map Tsd.rate).getD 0

/-- Translation of `compute_autocorrelogram` (correlograms.py): restrict the
group to `ep` when given; convert binsize and windowsize through the unit
factor; cross-correlate each member spike train with itself; index the
columns by the bin centers rounded to 6 decimals (the per-key series all
share this index, so the aligned frame keeps it; an empty group gives the
empty frame with an empty index); divide each column by the member rate when
`norm`; finally, when 0 is among the index values, overwrite the whole row
at label 0 with 0.0 (the source marks this zeroing with a "Bug here"
comment). -/
def compute_autocorrelogram (group : TsGroup) (binsize windowsize : ℚ)
    (ep : Option IntervalSet) (norm : Bool) (time_units : TUnit) :
    List ℚ × List (ℕ × List ℚ) :=
  let newgroup :=
    match ep with
    | some e => group.restrict e
    | none => group
  let b := binsize * unitFactor time_units
  let w := windowsize * unitFactor time_units
  let idx := if newgroup.members.isEmpty then [] else (corrB b w).map round6
  let cols := newgroup.members.map (fun kv =>
    let auc := (cross_correlogram kv.2.index kv.2.index b w).1
    (kv.1, if norm then auc.map (fun v => v / newgroup.rateOf kv.1) else auc))
  let zeroed :=
    if (0 : ℚ) ∈ idx then
      cols.map (fun kc =>
        (kc.1, (idx.zip kc.2).map (fun pr => if pr.1 = 0 then 0 else pr.2)))
    else cols
  (idx, zeroed)

/-- A runtime value as the validation decorator sees it: the argument
classes `isinstance` distinguishes in `_validate_correlograms_inputs`. -/
inductive PyVal where
  | tsgroup (g : TsGroup)
  | iset (e : IntervalSet)
  | tsv (x : Tsd)
  | num (q : ℚ)
  | str (s : String)
  | boolv (b : Bool)
  | tuple (vs : List PyVal)

/-- Python `isinstance(v, TsGroup)`. -/
def PyVal.isTsGroup : PyVal → Bool
  | PyVal.tsgroup _ => true
  | _ => false

/-- Python `isinstance(v, numbers.Number)`; a Python bool is a Number. -/
def PyVal.isNumber : PyVal → Bool
  | PyVal.num _ => true
  | PyVal.boolv _ => true
  | _ => false

/-- Python `isinstance(v, IntervalSet)`. -/
def PyVal.isISet : PyVal → Bool
  | PyVal.iset _ => true
  | _ => false

/-- Python `isinstance(v, bool)`. -/
def PyVal.isBool : PyVal → Bool
  | PyVal.boolv _ => true
  | _ => false

/-- Python `isinstance(v, str)`. -/
def PyVal.isStr : PyVal → Bool
  | PyVal.str _ => true
  | _ => false

/-- Python `isinstance(v, (Ts, Tsd))`; both classes are one container type
here, discriminated by `nap_class`. -/
def PyVal.isEvent : PyVal → Bool
  | PyVal.tsv _ => true
  | _ => false

/-- Python `isinstance(v, (tuple, list))`. -/
def PyVal.isTuple : PyVal → Bool
  | PyVal.tuple _ => true
  | _ => false

/-- The elements of a tuple/list value (empty for non-sequences). -/
def PyVal.tupleElems : PyVal → List PyVal
  | PyVal.tuple vs => vs
  | _ => []

/-- The bound arguments of a correlogram function as the decorator sees
them: `group` is always bound; the remaining parameters are present only
when explicitly passed (the source checks a parameter only when it occurs in
the bound arguments). -/
structure CorrArgs where
  group : PyVal
  binsize : Option PyVal
  windowsize : Option PyVal
  ep : Option PyVal
  norm : Option PyVal
  time_units : Option PyVal
  reverse : Option PyVal
  event : Option PyVal

/-- One entry of the decorator's `parameters_type` check: absent parameters
pass; a present parameter of the wrong class produces the TypeError
message. -/
def checkParam (pname : String) (v : Option PyVal) (ok : PyVal → Bool) :
    Option String :=
  match v with
  | none => none
  | some x =>
    if ok x then none
    else some ("Invalid type. Parameter " ++ pname ++ " must be of this type.")

/-- Translation of the `group` check of `_validate_correlograms_inputs`: for
`compute_crosscorrelogram` a tuple/list must hold exactly two TsGroups;
otherwise `group` must be a TsGroup, with the cross-correlogram variant
mentioned in the message for that function. -/
def groupCheck (fname : String) (g : PyVal) : Option String :=
  if fname = "compute_crosscorrelogram" ∧ g.isTuple then
    if g.tupleElems.all PyVal.isTsGroup ∧ g.tupleElems.length = 2 then none
    else some ("Invalid type. Parameter group must be of type TsGroup or a tuple/list of (TsGroup, TsGroup).")
  else if g.isTsGroup then none
  else if fname = "compute_crosscorrelogram" then
    some ("Invalid type. Parameter group must be of type TsGroup or a tuple/list of (TsGroup, TsGroup).")
  else some ("Invalid type. Parameter group must be of type TsGroup")

/-- Translation of `_validate_correlograms_inputs` (correlograms.py): check
the group argument, then each present parameter against `parameters_type` in
the source's dictionary order, returning the first TypeError. -/
def validate_correlograms_inputs (fname : String) (args : CorrArgs) :
    Option String :=
  match groupCheck fname args.group with
  | some m => some m
  | none =>
    ((((((checkParam ("binsize") args.binsize PyVal.isNumber).orElse
      (fun _ => checkParam ("windowsize") args.windowsize PyVal.isNumber)).orElse
      (fun _ => checkParam ("ep") args.ep PyVal.isISet)).orElse
      (fun _ => checkParam ("norm") args.norm PyVal.isBool)).orElse
      (fun _ => checkParam ("time_units") args.time_units PyVal.isStr)).orElse
      (fun _ => checkParam ("reverse") args.reverse PyVal.isBool)).orElse
      (fun _ => checkParam ("event") args.event PyVal.isEvent)

/-- Translation of the decorator wrapper: the validated call runs the
wrapped function body only when no check fails, otherwise it raises the
TypeError without entering the body. -/
def correlogram_wrapper {α : Type} (fname : String) (body : CorrArgs → α)
    (args : CorrArgs) : Except String α :=
  match validate_correlograms_inputs fname args with
  | some msg => Except.error msg
  | none => Except.ok (body args)

/-- The claim's wrong-argument-class condition, written from the claim and
spec words independently of the decorator translation: the group is not a
TsGroup (for `compute_crosscorrelogram`, nor a tuple/list of exactly two
TsGroups), or a supplied binsize/windowsize is not a Number, or a supplied
ep is not an IntervalSet, or a supplied norm/reverse is not a bool, or a
supplied time_units is not a str, or a supplied event is not a Ts/Tsd. -/
def wrongArgClassSpec (fname : String) (args : CorrArgs) : Bool :=
  (if fname = "compute_crosscorrelogram" then
    !(args.group.isTsGroup
      || (args.group.isTuple && args.group.tupleElems.all PyVal.isTsGroup
            && args.group.tupleElems.length == 2))
   else !args.group.isTsGroup)
  || (args.binsize.any (fun v => !v.isNumber))
  || (args.windowsize.any (fun v => !v.isNumber))
  || (args.ep.any (fun v => !v.isISet))
  || (args.norm.any (fun v => !v.isBool))
  || (args.time_units.any (fun v => !v.isStr))
  || (args.reverse.any (fun v => !v.isBool))
  || (args.event.any (fun v => !v.isEvent))

/-- Unit conversion from seconds is the identity. -/
theorem format_timestamps_s (l : List ℚ) : format_timestamps l TUnit.s = l := by
  simp [format_timestamps, unitFactor]

/-- Sorting and collapsing duplicates preserves nonemptiness. -/
theorem sort_timestamps_ne_nil {l : List ℚ} (h : l ≠ []) :
    sort_timestamps l ≠ [] := by
  unfold sort_timestamps
  intro hnil
  rw [List.dedup_eq_nil] at hnil
  have hp := List.perm_insertionSort (fun a b => a ≤ b) l
  rw [hnil] at hp
  exact h hp.symm.eq_nil

/-- Every time kept by the restriction scan lies in the interval set. -/
theorem mem_jitrestrict_fst {α : Type} {t : List ℚ} {d : List α}
    {ep : IntervalSet} {a : ℚ} (h : a ∈ (jitrestrict t d ep).1) :
    ep.containsT a = true := by
  unfold jitrestrict at h
  rw [List.unzip_fst] at h
  obtain ⟨pr, hpr, rfl⟩ := List.mem_map.1 h
  exact (List.mem_filter.1 hpr).2

/-- Restriction against the empty interval set keeps nothing. -/
theorem jitrestrict_empty {α : Type} (t : List ℚ) (d : List α) :
    jitrestrict t d IntervalSet.empty = ([], []) := by
  simp [jitrestrict, IntervalSet.containsT, IntervalSet.empty]

/-- C2: for every Tsd, TsdFrame and Ts immediately after construction, and
for every container returned by restrict, the stored rate equals the length
of the time index divided by the total duration of the time support (with
the exact-rational convention 0 / 0 = 0 matching the constructor's explicit
rate of 0.0 for an empty index over the empty support). -/
theorem rate_invariant :
    (∀ (t : List ℚ) (d : Option (List ℚ)) (tu : TUnit) (ts : Option IntervalSet),
      (mkTsd t d tu ts).rate =
        ((mkTsd t d tu ts).index.length : ℚ) / (mkTsd t d tu ts).time_support.totalDuration)
  ∧ (∀ (t : List ℚ) (tu : TUnit) (ts : Option IntervalSet),
      (mkTs t tu ts).rate =
        ((mkTs t tu ts).index.length : ℚ) / (mkTs t tu ts).time_support.totalDuration)
  ∧ (∀ (t : List ℚ) (d : List (List ℚ)) (c : Option (List ℕ)) (tu : TUnit)
      (ts : Option IntervalSet),
      (mkTsdFrame t d c tu ts).rate =
        ((mkTsdFrame t d c tu ts).index.length : ℚ) /
          (mkTsdFrame t d c tu ts).time_support.totalDuration)
  ∧ (∀ (x : Tsd) (ep : IntervalSet),
      (x.restrict ep).rate =
        ((x.restrict ep).index.length : ℚ) / (x.restrict ep).time_support.totalDuration)
  ∧ (∀ (y : TsdFrame) (ep : IntervalSet),
      (y.restrict ep).rate =
        ((y.restrict ep).index.length : ℚ) / (y.restrict ep).time_support.totalDuration) := by
  have htsd : ∀ (t : List ℚ) (d : Option (List ℚ)) (tu : TUnit) (ts : Option IntervalSet),
      (mkTsd t d tu ts).rate =
        ((mkTsd t d tu ts).index.length : ℚ) / (mkTsd t d tu ts).time_support.totalDuration := by
    intro t d tu ts
    unfold mkTsd
    by_cases h : (sort_timestamps (format_timestamps t tu)).isEmpty
    · simp [h, IntervalSet.totalDuration, IntervalSet.empty]
    · cases ts <;> simp [h]
  have hframe : ∀ (t : List ℚ) (d : List (List ℚ)) (c : Option (List ℕ)) (tu : TUnit)
      (ts : Option IntervalSet),
      (mkTsdFrame t d c tu ts).rate =
        ((mkTsdFrame t d c tu ts).index.length : ℚ) /
          (mkTsdFrame t d c tu ts).time_support.totalDuration := by
    intro t d c tu ts
    unfold mkTsdFrame
    by_cases h : (sort_timestamps (format_timestamps t tu)).isEmpty
    · simp [h, IntervalSet.totalDuration, IntervalSet.empty]
    · cases ts <;> simp [h]
  refine ⟨htsd, ?_, hframe, ?_, ?_⟩
  · intro t tu ts
    simpa [mkTs] using htsd t none tu ts
  · intro x ep
    unfold Tsd.restrict
    exact htsd _ _ _ _
  · intro y ep
    unfold TsdFrame.restrict
    exact hframe _ _ _ _ _

/-- C4: restricting any container to the interval set with zero intervals
is not an error: the result has length 0, the empty interval set as its time
support, and rate 0. -/
theorem restrict_empty_intervalset :
    ∀ (x : Tsd) (y : TsdFrame),
      (x.restrict IntervalSet.empty).index.length = 0
    ∧ (x.restrict IntervalSet.empty).time_support = IntervalSet.empty
    ∧ (x.restrict IntervalSet.empty).rate = 0
    ∧ (y.restrict IntervalSet.empty).index.length = 0
    ∧ (y.restrict IntervalSet.empty).time_support = IntervalSet.empty
    ∧ (y.restrict IntervalSet.empty).rate = 0 := by
  intro x y
  have hx : x.restrict IntervalSet.empty =
      mkTsd [] (some []) TUnit.s (some IntervalSet.empty) := by
    unfold Tsd.restrict
    rw [jitrestrict_empty]
  have hy : y.restrict IntervalSet.empty =
      mkTsdFrame [] [] (some y.columns) TUnit.s (some IntervalSet.empty) := by
    unfold TsdFrame.restrict
    rw [jitrestrict_empty]
  rw [hx, hy]
  refine ⟨?_, ?_, ?_, ?_, ?_, ?_⟩ <;>
    simp [mkTsd, mkTsdFrame, sort_timestamps, format_timestamps]

/-- C1 counterexample: the claim "restrict always adopts the supplied
interval set as the new support" fails when no sample falls inside it — a
Tsd with the single time 0 restricted to the set [(10, 20)] comes back with
the empty support, because the initializer's empty branch installs the empty
interval set instead of the supplied one. -/
theorem restrict_support_counterexample :
    ¬ (((mkTsd [0] (some [0]) TUnit.s none).restrict
        (IntervalSet.of [(10, 20)])).time_support = IntervalSet.of [(10, 20)]) := by
  decide

/-- C1 amended: restrict adopts the supplied interval set as the new time
support whenever the restriction retains at least one sample (when nothing
is retained, the support is the empty interval set instead), and every
retained time lies inside some interval of the supplied set,
boundary-inclusive.  This holds for Tsd (hence Ts) and TsdFrame. -/
theorem restrict_support_amended :
    ∀ (x : Tsd) (y : TsdFrame) (ep : IntervalSet),
      ((jitrestrict x.index x.values ep).1 ≠ [] →
        (x.restrict ep).time_support = ep)
    ∧ (∀ time ∈ (x.restrict ep).index, ep.containsT time = true)
    ∧ ((jitrestrict y.index y.values ep).1 ≠ [] →
        (y.restrict ep).time_support = ep)
    ∧ (∀ time ∈ (y.restrict ep).index, ep.containsT time = true) := by
  intro x y ep
  refine ⟨?_, ?_, ?_, ?_⟩
  · intro hne
    unfold Tsd.restrict mkTsd
    have hts : ¬ (sort_timestamps
        (format_timestamps (jitrestrict x.index x.values ep).1 TUnit.s)).isEmpty := by
      rw [format_timestamps_s]
      simpa [List.isEmpty_iff] using sort_timestamps_ne_nil hne
    simp [hts]
  · intro time htime
    unfold Tsd.restrict mkTsd at htime
    by_cases hts : (sort_timestamps
        (format_timestamps (jitrestrict x.index x.values ep).1 TUnit.s)).isEmpty
    · simp [hts] at htime
    · simp only [hts] at htime
      simp only [Bool.false_eq_true, if_false] at htime
      exact mem_jitrestrict_fst htime
  · intro hne
    unfold TsdFrame.restrict mkTsdFrame
    have hts : ¬ (sort_timestamps
        (format_timestamps (jitrestrict y.index y.values ep).1 TUnit.s)).isEmpty := by
      rw [format_timestamps_s]
      simpa [List.isEmpty_iff] using sort_timestamps_ne_nil hne
    simp [hts]
  · intro time htime
    unfold TsdFrame.restrict mkTsdFrame at htime
    by_cases hts : (sort_timestamps
        (format_timestamps (jitrestrict y.index y.values ep).1 TUnit.s)).isEmpty
    · simp [hts] at htime
    · simp only [hts] at htime
      simp only [Bool.false_eq_true, if_false] at htime
      exact mem_jitrestrict_fst htime

/-- C1 witness: at a concrete input retaining a sample, the restricted
container's support is the supplied set and the retained time lies in it. -/
theorem restrict_support_amended_witness :
    ((mkTsd [0, 15] (some [1, 2]) TUnit.s none).restrict
        (IntervalSet.of [(10, 20)])).time_support = IntervalSet.of [(10, 20)]
  ∧ ∀ time ∈ ((mkTsd [0, 15] (some [1, 2]) TUnit.s none).restrict
        (IntervalSet.of [(10, 20)])).index,
      (IntervalSet.of [(10, 20)]).containsT time = true := by
  have h := restrict_support_amended (mkTsd [0, 15] (some [1, 2]) TUnit.s none)
    (mkTsdFrame [] [] none TUnit.s none) (IntervalSet.of [(10, 20)])
  exact ⟨h.1 (by decide), h.2.1⟩

/-- The threshold scan itself never raises a ValueError (its failure mode is
the domain RuntimeError for an empty epoch selection). -/
theorem jitthreshold_no_valueError (t d : List ℚ) (thr : ℚ) (method msg : String) :
    jitthreshold t d thr method ≠ Except.error (NapError.valueError msg) := by
  simp only [jitthreshold]
  split <;> simp

/-- C5: `Tsd.threshold` raises a ValueError exactly when the method string
is outside the four accepted ones, and when it does, the result is computed
before touching the data — it depends only on the method string, so no
partial result involving the container or threshold is produced. -/
theorem threshold_valueerror_iff :
    ∀ (x : Tsd) (thr : ℚ) (method : String),
      ((∃ msg, Tsd.threshold x thr method = Except.error (NapError.valueError msg))
        ↔ method ∉ validMethods)
    ∧ (method ∉ validMethods →
        ∀ (y : Tsd) (thr2 : ℚ), Tsd.threshold x thr method = Tsd.threshold y thr2 method) := by
  intro x thr method
  by_cases h : method ∈ validMethods
  · constructor
    · constructor
      · rintro ⟨msg, hmsg⟩
        unfold Tsd.threshold at hmsg
        rw [if_pos h] at hmsg
        cases hj : jitthreshold x.index x.values thr method with
        | error e =>
          rw [hj] at hmsg
          have : e = NapError.valueError msg := Except.error.inj hmsg
          rw [this] at hj
          exact absurd hj (jitthreshold_no_valueError _ _ _ _ _)
        | ok v =>
          rw [hj] at hmsg
          cases hmsg
      · intro hcon
        exact absurd h hcon
    · intro hcon
      exact absurd h hcon
  · constructor
    · constructor
      · intro _
        exact h
      · intro _
        refine ⟨"Method " ++ method ++ " for thresholding is not accepted.", ?_⟩
        unfold Tsd.threshold
        rw [if_neg h]
    · intro _ y thr2
      unfold Tsd.threshold
      rw [if_neg h, if_neg h]

/-- C5 witness: at the concrete method string "foo" the call returns the
ValueError and the result is independent of the container and threshold. -/
theorem threshold_valueerror_iff_witness :
    (∃ msg, Tsd.threshold (mkTsd [0] (some [0]) TUnit.s none) 0 ("foo")
        = Except.error (NapError.valueError msg))
  ∧ Tsd.threshold (mkTsd [0] (some [0]) TUnit.s none) 0 ("foo")
      = Tsd.threshold (mkTsd [1] (some [1]) TUnit.s none) 5 ("foo") := by
  have h := threshold_valueerror_iff (mkTsd [0] (some [0]) TUnit.s none) 0 ("foo")
  exact ⟨h.1.mpr (by decide), h.2 (by decide) _ _⟩

/-- C6: thresholding the Tsd with times 0..99 and data 0..99 at 50 with
method "above" succeeds and yields a time support consisting of the single
interval from 50.5 to 99. -/
theorem threshold_increasing_concrete :
    (Tsd.threshold
        (mkTsd ((List.range 100).map (fun n => (n : ℚ)))
          (some ((List.range 100).map (fun n => (n : ℚ)))) TUnit.s none)
        50 ("above")).toOption.map (fun y => y.time_support.intervals)
      = some [((101 : ℚ) / 2, 99)] := by
  decide

/-- Pairing an index with the row-zeroed copy of a column: wherever the
index value is 0 the paired entry is 0. -/
theorem zip_zero_of_zeroed :
    ∀ (idx col : List ℚ),
      ∀ pr ∈ idx.zip ((idx.zip col).map (fun q => if q.1 = 0 then 0 else q.2)),
        pr.1 = 0 → pr.2 = 0 := by
  intro idx
  induction idx with
  | nil =>
    intro col pr h
    simp at h
  | cons a rest ih =>
    intro col
    cases col with
    | nil =>
      intro pr h
      simp at h
    | cons c cs =>
      intro pr h hz
      rw [List.zip_cons_cons, List.map_cons, List.zip_cons_cons] at h
      rcases List.mem_cons.1 h with heq | hmem
      · subst heq
        simp only at hz
        simp [hz]
      · exact ih cs pr hmem hz

/-- C7: whenever 0 occurs among the rounded bin-center index values,
`compute_autocorrelogram` forces the value at the zero-lag row to exactly 0
in every column of its output, for any group, bin parameters, epoch,
normalization flag and time unit — the post-normalization zeroing the
source marks with its "Bug here" comment. -/
theorem autocorr_zero_lag :
    ∀ (group : TsGroup) (binsize windowsize : ℚ) (ep : Option IntervalSet)
      (norm : Bool) (tu : TUnit),
      (0 : ℚ) ∈ (compute_autocorrelogram group binsize windowsize ep norm tu).1 →
      ∀ kc ∈ (compute_autocorrelogram group binsize windowsize ep norm tu).2,
        ∀ pr ∈ (compute_autocorrelogram group binsize windowsize ep norm tu).1.zip kc.2,
          pr.1 = 0 → pr.2 = 0 := by
  intro group binsize windowsize ep norm tu h kc hkc pr hpr hz
  simp only [compute_autocorrelogram] at h hkc hpr
  rw [if_pos h] at hkc
  obtain ⟨kv, _, rfl⟩ := List.mem_map.1 hkc
  exact zip_zero_of_zeroed _ _ pr hpr hz

/-- C7 witness: for the singleton group on the one-spike train at time 0,
with binsize 1 and windowsize 1, the zero-lag entry (position 1 of the
3-bin grid) of the key-0 column is 0. -/
theorem autocorr_zero_lag_witness :
    ((((compute_autocorrelogram ⟨[(0, mkTs [0] TUnit.s none)]⟩ 1 1 none false
        TUnit.s).2.getD 0 (0, [])).2).getD 1 9) = 0 := by
  have h := autocorr_zero_lag ⟨[(0, mkTs [0] TUnit.s none)]⟩ 1 1 none false TUnit.s
    (by decide)
  exact h
    ((compute_autocorrelogram ⟨[(0, mkTs [0] TUnit.s none)]⟩ 1 1 none false
      TUnit.s).2.getD 0 (0, []))
    (by decide)
    (0, (((compute_autocorrelogram ⟨[(0, mkTs [0] TUnit.s none)]⟩ 1 1 none false
      TUnit.s).2.getD 0 (0, [])).2).getD 1 9)
    (by decide)
    (by decide)

/-- The head of a sorted list is a lower bound for its members. -/
theorem sorted_headD_le {l : List ℚ} (hs : l.Sorted (fun a b => a ≤ b)) :
    ∀ a ∈ l, l.headD 0 ≤ a := by
  cases l with
  | nil =>
    intro a ha
    simp at ha
  | cons b t =>
    intro a ha
    rcases List.mem_cons.1 ha with rfl | hmem
    · simp
    · simpa using List.rel_of_sorted_cons hs a hmem

/-- The last element of a sorted list is an upper bound for its members,
for any fallback value. -/
theorem sorted_le_getLastD :
    ∀ (l : List ℚ) (dflt : ℚ), l.Sorted (fun a b => a ≤ b) →
      ∀ a ∈ l, a ≤ l.getLastD dflt := by
  intro l
  induction l with
  | nil =>
    intro dflt _ a ha
    simp at ha
  | cons b t ih =>
    intro dflt hs a ha
    cases t with
    | nil =>
      rcases List.mem_cons.1 ha with rfl | h2
      · simp [List.getLastD]
      · simp at h2
    | cons c t2 =>
      rw [List.getLastD_cons dflt b (c :: t2)]
      rcases List.mem_cons.1 ha with heq | hmem
      · have hac : a ≤ c := by
          rw [heq]
          exact List.rel_of_sorted_cons hs c (by simp)
        exact le_trans hac (ih b hs.of_cons c (by simp))
      · exact ih b hs.of_cons a hmem

/-- The head of a nonempty list is a member. -/
theorem headD_mem {l : List ℚ} (h : l ≠ []) : l.headD 0 ∈ l := by
  cases l with
  | nil => exact absurd rfl h
  | cons b t => simp

/-- The last element of a nonempty list is a member, for any fallback. -/
theorem getLastD_mem : ∀ (l : List ℚ) (dflt : ℚ), l ≠ [] → l.getLastD dflt ∈ l := by
  intro l
  induction l with
  | nil =>
    intro dflt h
    exact absurd rfl h
  | cons b t ih =>
    intro dflt _
    cases t with
    | nil => simp [List.getLastD]
    | cons c t2 =>
      rw [List.getLastD_cons dflt b (c :: t2)]
      exact List.mem_cons_of_mem b (ih b (by simp))

/-- The initializer tags every value it builds as a `Tsd`. -/
theorem mkTsd_nap_class (t : List ℚ) (d : Option (List ℚ)) (tu : TUnit)
    (ts : Option IntervalSet) : (mkTsd t d tu ts).nap_class = "Tsd" := by
  unfold mkTsd
  by_cases h : (sort_timestamps (format_timestamps t tu)).isEmpty
  · simp [h]
  · cases ts <;> simp [h]

/-- With no declared support and a nonempty sorted index, the initializer
derives the bounding interval of the sorted times as the support. -/
theorem mkTsd_none_support (t : List ℚ) (d : Option (List ℚ)) (tu : TUnit)
    (h : sort_timestamps (format_timestamps t tu) ≠ []) :
    (mkTsd t d tu none).time_support =
      IntervalSet.of [((sort_timestamps (format_timestamps t tu)).headD 0,
        (sort_timestamps (format_timestamps t tu)).getLastD 0)] := by
  unfold mkTsd
  have hie : (sort_timestamps (format_timestamps t tu)).isEmpty = false := by
    simpa [List.isEmpty_iff] using h
  simp [hie]

/-- The frame initializer tags every value it builds as a `TsdFrame`. -/
theorem mkTsdFrame_nap_class (t : List ℚ) (d : List (List ℚ)) (c : Option (List ℕ))
    (tu : TUnit) (ts : Option IntervalSet) :
    (mkTsdFrame t d c tu ts).nap_class = "TsdFrame" := by
  unfold mkTsdFrame
  by_cases h : (sort_timestamps (format_timestamps t tu)).isEmpty
  · simp [h]
  · cases ts <;> simp [h]

/-- With no declared support and a nonempty sorted index, the frame
initializer derives the bounding interval of the sorted times as the
support. -/
theorem mkTsdFrame_none_support (t : List ℚ) (d : List (List ℚ))
    (c : Option (List ℕ)) (tu : TUnit)
    (h : sort_timestamps (format_timestamps t tu) ≠ []) :
    (mkTsdFrame t d c tu none).time_support =
      IntervalSet.of [((sort_timestamps (format_timestamps t tu)).headD 0,
        (sort_timestamps (format_timestamps t tu)).getLastD 0)] := by
  unfold mkTsdFrame
  have hie : (sort_timestamps (format_timestamps t tu)).isEmpty = false := by
    simpa [List.isEmpty_iff] using h
  simp [hie]

/-- The derived bounding interval of a nonempty selection is a single
interval whose endpoints are the least and greatest selected values. -/
theorem bounding_support_of_sel (sel : List ℚ) (h : sel ≠ []) :
    ∃ m M,
      (IntervalSet.of [((sort_timestamps sel).headD 0,
        (sort_timestamps sel).getLastD 0)]).intervals = [(m, M)]
    ∧ m ∈ sel ∧ M ∈ sel ∧ ∀ a ∈ sel, m ≤ a ∧ a ≤ M := by
  have htsne : sort_timestamps sel ≠ [] := sort_timestamps_ne_nil h
  have hsort : (sort_timestamps sel).Sorted (fun a b => a ≤ b) := by
    unfold sort_timestamps
    exact List.Pairwise.sublist (List.dedup_sublist _) (List.sorted_insertionSort _ _)
  have hmem : ∀ a, a ∈ sort_timestamps sel ↔ a ∈ sel := by
    intro a
    unfold sort_timestamps
    rw [List.mem_dedup]
    exact (List.perm_insertionSort _ _).mem_iff
  refine ⟨(sort_timestamps sel).headD 0, (sort_timestamps sel).getLastD 0,
    ?_, ?_, ?_, ?_⟩
  · simp [IntervalSet.of, List.insertionSort, List.orderedInsert, mergeIntervals,
      mergeAux]
  · exact (hmem _).1 (headD_mem htsne)
  · exact (hmem _).1 (getLastD_mem _ _ htsne)
  · intro a ha
    exact ⟨sorted_headD_le hsort a ((hmem a).2 ha),
      sorted_le_getLastD _ 0 hsort a ((hmem a).2 ha)⟩

/-- C8 counterexample: the claim fails at two of its instances.  First,
element access does not always return the type of the input: `Ts` inherits
`Tsd.__getitem__`, which rebuilds a `Tsd` unconditionally, so indexing a
`Ts` yields a value whose `nap_class` is "Tsd", not "Ts".  Second, for a
valid but empty slice the derived support has zero intervals, so it is not
the single bounding interval the claim asserts. -/
theorem getitem_type_counterexample :
    ¬ (((mkTs [0, 1] TUnit.s none).getitem [0]).nap_class
        = (mkTs [0, 1] TUnit.s none).nap_class)
  ∧ ¬ (((mkTsd [0, 1] (some [5, 6]) TUnit.s none).getitem
        []).time_support.intervals.length = 1) := by
  decide

/-- C8 amended: element access on a Tsd returns a Tsd and on a TsdFrame a
TsdFrame — the one exception to same-type being Ts, whose inherited access
returns a Tsd; when the selection is nonempty, the time support of the
result is the single bounding interval of the selected timestamps (from the
least to the greatest selected time), not the original support; an empty
selection derives the empty support instead. -/
theorem getitem_support_amended :
    ∀ (x : Tsd) (y : TsdFrame) (key : List ℕ),
      (x.getitem key).nap_class = "Tsd"
    ∧ (y.getitem key).nap_class = "TsdFrame"
    ∧ (key = [] →
        (x.getitem key).time_support = IntervalSet.empty
      ∧ (y.getitem key).time_support = IntervalSet.empty)
    ∧ (key ≠ [] →
        (∃ m M, (x.getitem key).time_support.intervals = [(m, M)]
          ∧ m ∈ key.map (fun i => x.index.getD i 0)
          ∧ M ∈ key.map (fun i => x.index.getD i 0)
          ∧ ∀ a ∈ key.map (fun i => x.index.getD i 0), m ≤ a ∧ a ≤ M)
      ∧ (∃ m M, (y.getitem key).time_support.intervals = [(m, M)]
          ∧ m ∈ key.map (fun i => y.index.getD i 0)
          ∧ M ∈ key.map (fun i => y.index.getD i 0)
          ∧ ∀ a ∈ key.map (fun i => y.index.getD i 0), m ≤ a ∧ a ≤ M)) := by
  intro x y key
  have hbx : x.getitem key =
      mkTsd (key.map (fun i => x.index.getD i 0))
        (some (key.map (fun i => x.values.getD i 0))) TUnit.s none := rfl
  have hby : y.getitem key =
      mkTsdFrame (key.map (fun i => y.index.getD i 0))
        (key.map (fun i => y.values.getD i [])) none TUnit.s none := rfl
  refine ⟨?_, ?_, ?_, ?_⟩
  · rw [hbx]
    exact mkTsd_nap_class _ _ _ _
  · rw [hby]
    exact mkTsdFrame_nap_class _ _ _ _ _
  · intro hk
    subst hk
    exact ⟨rfl, rfl⟩
  · intro hk
    have hselx : key.map (fun i => x.index.getD i 0) ≠ [] := by
      simpa [List.map_eq_nil_iff] using hk
    have hsely : key.map (fun i => y.index.getD i 0) ≠ [] := by
      simpa [List.map_eq_nil_iff] using hk
    constructor
    · obtain ⟨m, M, hint, hm, hM, hbd⟩ := bounding_support_of_sel _ hselx
      refine ⟨m, M, ?_, hm, hM, hbd⟩
      rw [hbx, mkTsd_none_support _ _ _
        (by rw [format_timestamps_s]; exact sort_timestamps_ne_nil hselx),
        format_timestamps_s]
      exact hint
    · obtain ⟨m, M, hint, hm, hM, hbd⟩ := bounding_support_of_sel _ hsely
      refine ⟨m, M, ?_, hm, hM, hbd⟩
      rw [hby, mkTsdFrame_none_support _ _ _ _
        (by rw [format_timestamps_s]; exact sort_timestamps_ne_nil hsely),
        format_timestamps_s]
      exact hint

/-- C8 witness: at concrete two-sample containers and the key selecting
position 1, the Tsd result is Tsd-classed, the TsdFrame result is
TsdFrame-classed, and both supports are the bounding interval of the
selected time. -/
theorem getitem_support_amended_witness :
    (([1] : List ℕ) ≠ [])
  ∧ ((mkTsd [0, 7] (some [5, 6]) TUnit.s none).getitem [1]).nap_class = "Tsd"
  ∧ ((mkTsdFrame [0, 7] [[1], [2]] none TUnit.s none).getitem [1]).nap_class
      = "TsdFrame"
  ∧ ((∃ m M, ((mkTsd [0, 7] (some [5, 6]) TUnit.s none).getitem
        [1]).time_support.intervals = [(m, M)]
      ∧ m ∈ ([1] : List ℕ).map
          (fun i => (mkTsd [0, 7] (some [5, 6]) TUnit.s none).index.getD i 0)
      ∧ M ∈ ([1] : List ℕ).map
          (fun i => (mkTsd [0, 7] (some [5, 6]) TUnit.s none).index.getD i 0)
      ∧ ∀ a ∈ ([1] : List ℕ).map
          (fun i => (mkTsd [0, 7] (some [5, 6]) TUnit.s none).index.getD i 0),
          m ≤ a ∧ a ≤ M)
    ∧ (∃ m M, ((mkTsdFrame [0, 7] [[1], [2]] none TUnit.s none).getitem
        [1]).time_support.intervals = [(m, M)]
      ∧ m ∈ ([1] : List ℕ).map
          (fun i => (mkTsdFrame [0, 7] [[1], [2]] none TUnit.s none).index.getD i 0)
      ∧ M ∈ ([1] : List ℕ).map
          (fun i => (mkTsdFrame [0, 7] [[1], [2]] none TUnit.s none).index.getD i 0)
      ∧ ∀ a ∈ ([1] : List ℕ).map
          (fun i => (mkTsdFrame [0, 7] [[1], [2]] none TUnit.s none).index.getD i 0),
          m ≤ a ∧ a ≤ M)) := by
  have h := getitem_support_amended (mkTsd [0, 7] (some [5, 6]) TUnit.s none)
    (mkTsdFrame [0, 7] [[1], [2]] none TUnit.s none) [1]
  exact ⟨by decide, h.1, h.2.1, h.2.2.2 (by decide)⟩

/-- Presence of a result in an option fallback chain. -/
theorem orElse_isSome (a : Option String) (b : Unit → Option String) :
    (a.orElse b).isSome = (a.isSome || (b ()).isSome) := by
  cases a <;> simp [Option.orElse]

/-- A parameter check fails exactly on a present value of the wrong class. -/
theorem checkParam_isSome (pname : String) (v : Option PyVal) (ok : PyVal → Bool) :
    (checkParam pname v ok).isSome = v.any (fun x => !ok x) := by
  cases v with
  | none => rfl
  | some x => by_cases h : ok x <;> simp [checkParam, h]

/-- The group check fails exactly on the claim's wrong-group condition. -/
theorem groupCheck_isSome (fname : String) (g : PyVal) :
    (groupCheck fname g).isSome =
      (if fname = "compute_crosscorrelogram" then
        !(g.isTsGroup || (g.isTuple && g.tupleElems.all PyVal.isTsGroup
            && g.tupleElems.length == 2))
       else !g.isTsGroup) := by
  by_cases hf : fname = "compute_crosscorrelogram"
  · rw [if_pos hf]
    by_cases ht : g.isTuple = true
    · unfold groupCheck
      rw [if_pos ⟨hf, ht⟩]
      have hgt : g.isTsGroup = false := by
        cases g <;> simp_all [PyVal.isTuple, PyVal.isTsGroup]
      rw [hgt, ht]
      by_cases hc : g.tupleElems.all PyVal.isTsGroup = true ∧ g.tupleElems.length = 2
      · rw [if_pos hc]
        simp [hc.1, hc.2]
      · rw [if_neg hc]
        rcases not_and_or.1 hc with h1 | h1
        · have : g.tupleElems.all PyVal.isTsGroup = false :=
            Bool.not_eq_true _ ▸ eq_false_of_ne_true h1
          simp [this]
        · have : (g.tupleElems.length == 2) = false := beq_eq_false_iff_ne.mpr h1
          simp [this]
    · unfold groupCheck
      rw [if_neg (by simp [ht])]
      have htf : g.isTuple = false := eq_false_of_ne_true ht
      by_cases hgrp : g.isTsGroup = true
      · rw [if_pos hgrp]
        simp [hgrp]
      · rw [if_neg hgrp, if_pos hf]
        simp [eq_false_of_ne_true hgrp, htf]
  · rw [if_neg hf]
    unfold groupCheck
    rw [if_neg (by simp [hf])]
    by_cases hgrp : g.isTsGroup = true
    · rw [if_pos hgrp]
      simp [hgrp]
    · rw [if_neg hgrp, if_neg hf]
      simp [eq_false_of_ne_true hgrp]

/-- C9: for the three correlogram functions, the validation decorator
raises a TypeError exactly when some argument has the wrong class (group not
a TsGroup — for compute_crosscorrelogram, nor a tuple/list of exactly two
TsGroups — or a supplied binsize/windowsize not a Number, ep not an
IntervalSet, norm/reverse not a bool, time_units not a str, event not a
Ts/Tsd); and when it does, the wrapped body is never entered: the result is
the TypeError alone, identical for every possible body, so no partial
result is produced. -/
theorem correlogram_type_errors :
    ∀ (fname : String) (args : CorrArgs),
      fname ∈ ["compute_autocorrelogram", "compute_crosscorrelogram",
        "compute_eventcorrelogram"] →
      ((validate_correlograms_inputs fname args).isSome
        ↔ wrongArgClassSpec fname args = true)
    ∧ (∀ (α : Type) (body1 body2 : CorrArgs → α),
        wrongArgClassSpec fname args = true →
          correlogram_wrapper fname body1 args = correlogram_wrapper fname body2 args
        ∧ correlogram_wrapper fname body1 args
            = Except.error ((validate_correlograms_inputs fname args).getD "")) := by
  intro fname args _
  have hval : (validate_correlograms_inputs fname args).isSome
      = wrongArgClassSpec fname args := by
    unfold validate_correlograms_inputs wrongArgClassSpec
    cases hg : groupCheck fname args.group with
    | some m =>
      have hgs := groupCheck_isSome fname args.group
      rw [hg] at hgs
      rw [← hgs]
      simp
    | none =>
      have hgs := groupCheck_isSome fname args.group
      rw [hg] at hgs
      rw [← hgs]
      simp [orElse_isSome, checkParam_isSome, Bool.or_assoc]
  constructor
  · rw [hval]
  · intro α body1 body2 hw
    rw [← hval] at hw
    obtain ⟨m, hm⟩ := Option.isSome_iff_exists.1 hw
    unfold correlogram_wrapper
    rw [hm]
    exact ⟨rfl, rfl⟩

/-- C9 witness: calling compute_autocorrelogram with a number in place of
the group fails validation, and the wrapper returns the TypeError without
running either of two different bodies. -/
theorem correlogram_type_errors_witness :
    (("compute_autocorrelogram" : String) ∈ ["compute_autocorrelogram",
      "compute_crosscorrelogram", "compute_eventcorrelogram"])
  ∧ (((validate_correlograms_inputs ("compute_autocorrelogram")
        ⟨PyVal.num 3, none, none, none, none, none, none, none⟩).isSome
      ↔ wrongArgClassSpec ("compute_autocorrelogram")
          ⟨PyVal.num 3, none, none, none, none, none, none, none⟩ = true)
    ∧ (∀ (α : Type) (body1 body2 : CorrArgs → α),
        wrongArgClassSpec ("compute_autocorrelogram")
            ⟨PyVal.num 3, none, none, none, none, none, none, none⟩ = true →
          correlogram_wrapper ("compute_autocorrelogram") body1
              ⟨PyVal.num 3, none, none, none, none, none, none, none⟩
            = correlogram_wrapper ("compute_autocorrelogram") body2
              ⟨PyVal.num 3, none, none, none, none, none, none, none⟩
        ∧ correlogram_wrapper ("compute_autocorrelogram") body1
              ⟨PyVal.num 3, none, none, none, none, none, none, none⟩
            = Except.error ((validate_correlograms_inputs ("compute_autocorrelogram")
                ⟨PyVal.num 3, none, none, none, none, none, none, none⟩).getD ""))) :=
  ⟨by decide, correlogram_type_errors ("compute_autocorrelogram")
    ⟨PyVal.num 3, none, none, none, none, none, none, none⟩ (by decide)⟩

/-- The bin-center array has one entry per bin. -/
theorem corrB_length (b w : ℚ) : (corrB b w).length = (corrNbins b w).toNat := by
  simp [corrB]

/-- Closed form of the bin-center entries. -/
theorem corrB_getD (b w : ℚ) (j : ℕ) (h : j < (corrNbins b w).toNat) :
    (corrB b w).getD j 0 = -(corrW b w) + b / 2 + (j : ℚ) * b := by
  unfold corrB
  rw [List.getD_eq_getElem?_getD, List.getElem?_map, List.getElem?_range h]
  simp

/-- C10: for every binsize > 0 and windowsize ≥ binsize, the bin-center
array of `_cross_correlogram` has odd length (the bin count is bumped to the
next odd number when even), consecutive entries differ by exactly binsize,
and the middle entry is exactly 0 — a zero-lag bin always exists and the
grid is symmetric around lag 0. -/
theorem corr_bin_grid :
    ∀ (binsize windowsize : ℚ), 0 < binsize → binsize ≤ windowsize →
      Odd (corrB binsize windowsize).length
    ∧ (∀ j, j + 1 < (corrB binsize windowsize).length →
        (corrB binsize windowsize).getD (j + 1) 0
          - (corrB binsize windowsize).getD j 0 = binsize)
    ∧ (corrB binsize windowsize).getD
        (((corrB binsize windowsize).length - 1) / 2) 0 = 0 := by
  intro b w hb hbw
  have h2 : (2 : ℚ) ≤ (w * 2) / b := by
    rw [le_div_iff₀ hb]
    nlinarith
  have hfl : (2 : ℤ) ≤ ⌊(w * 2) / b⌋ := Int.le_floor.mpr (by exact_mod_cast h2)
  have hNodd : Odd (corrNbins b w) := by
    simp only [corrNbins]
    by_cases hpar : ⌊(w * 2) / b⌋ % 2 = 0
    · rw [if_pos hpar]
      exact (Int.even_iff.mpr hpar).add_one
    · rw [if_neg hpar]
      exact Int.odd_iff.mpr (by omega)
  have hN3 : 3 ≤ corrNbins b w := by
    simp only [corrNbins]
    split <;> omega
  obtain ⟨k, hk⟩ := hNodd
  have hk1 : 1 ≤ k := by omega
  have hKk : ((k.toNat : ℤ)) = k := Int.toNat_of_nonneg (by omega)
  have hL : (corrB b w).length = 2 * k.toNat + 1 := by
    rw [corrB_length]
    omega
  have hcast : ((corrNbins b w : ℤ) : ℚ) = 2 * (k.toNat : ℚ) + 1 := by
    have hkq : ((k.toNat : ℚ)) = (k : ℚ) := by
      exact_mod_cast congrArg (fun z : ℤ => (z : ℚ)) hKk
    rw [hk, hkq]
    push_cast
    ring
  refine ⟨⟨k.toNat, by omega⟩, ?_, ?_⟩
  · intro j hj
    have hj2 : j + 1 < (corrNbins b w).toNat := by
      rw [← corrB_length]
      exact hj
    have hj1 : j < (corrNbins b w).toNat := by omega
    rw [corrB_getD b w (j + 1) hj2, corrB_getD b w j hj1]
    push_cast
    ring
  · have hj0 : ((corrB b w).length - 1) / 2 = k.toNat := by
      rw [hL]
      omega
    have hklt : k.toNat < (corrNbins b w).toNat := by omega
    rw [hj0, corrB_getD b w k.toNat hklt, corrW, hcast]
    ring

/-- C10 witness: at binsize 1 and windowsize 1 the hypotheses hold and the
grid [-1, 0, 1] has odd length, spacing 1 and middle entry 0. -/
theorem corr_bin_grid_witness :
    ((0 : ℚ) < 1 ∧ (1 : ℚ) ≤ 1)
  ∧ (Odd (corrB 1 1).length
    ∧ (∀ j, j + 1 < (corrB 1 1).length →
        (corrB 1 1).getD (j + 1) 0 - (corrB 1 1).getD j 0 = 1)
    ∧ (corrB 1 1).getD (((corrB 1 1).length - 1) / 2) 0 = 0) :=
  ⟨⟨by norm_num, by norm_num⟩, corr_bin_grid 1 1 (by norm_num) (by norm_num)⟩
